import Mathlib

set_option linter.unusedVariables false

/-!
Verification development for `nevergrad/functions/ml/mlfunctionlib.py`
(class `MLTuning`): dataset materialization, cross-validation splitting and
the two evaluation modes of `_ml_parametrization`, shallowly embedded over
exact rational arithmetic.  External collaborators (the sklearn regressors,
the dataset loaders, `train_test_split`, and the seeded random shuffles) are
abstracted as explicit parameters, following their documented contracts.
-/

namespace NGML

/-- A row of the feature matrix. -/
abbrev Row := List ℚ

/-- Python exceptions raised by the embedded code paths. -/
inductive PyErr where
  | valueError (msg : String)
  | assertionError (msg : String)
  | keyError (msg : String)
  deriving DecidableEq

/-- A Python number as passed for `depth`: either an `int` or a non-`int`
float; `isinstance(depth, int)` is `isInt`. -/
inductive PyNum where
  | int (n : ℤ)
  | float (q : ℚ)
  deriving DecidableEq

/-- Python `isinstance(depth, int)`. -/
def PyNum.isInt : PyNum → Bool
  | .int _ => true
  | .float _ => false

/-- Python `str.startswith` on character lists. -/
def charsStart : List Char → List Char → Bool
  | [], _ => true
  | _ :: _, [] => false
  | a :: as, b :: bs => a == b && charsStart as bs

/-- Substring containment on character lists (Python `in` on strings). -/
def charsHas (needle : List Char) : List Char → Bool
  | [] => charsStart needle []
  | b :: bs => charsStart needle (b :: bs) || charsHas needle bs

/-- Python `s.startswith(pre)`. -/
def strStarts (pre s : String) : Bool := charsStart pre.toList s.toList

/-- Python `needle in s` (substring containment). -/
def strHas (needle s : String) : Bool := charsHas needle.toList s.toList

/-- Fuel-driven chunking of a flat list into rows of `d` entries; the fuel is
only there to make the recursion structural and is always instantiated with
the length of the list. -/
def chunksF (d : ℕ) : ℕ → List α → List (List α)
  | _, [] => []
  | 0, _ :: _ => []
  | fuel + 1, a :: l => ((a :: l).take d) :: chunksF d fuel ((a :: l).drop d)

/-- Split a flat list into consecutive rows of `d` entries. -/
def chunks (d : ℕ) (l : List α) : List (List α) := chunksF d l.length l

/-- numpy `reshape(-1, d)` of a flat array: succeeds exactly when `d` is
positive and divides the element count. -/
def reshapeCols (d : ℕ) (l : List α) : Except PyErr (List (List α)) :=
  if 0 < d ∧ d ∣ l.length then .ok (chunks d l) else .error (.valueError "cannot reshape")

/-- numpy `np.arange(0., 1., 1./n)` under exact arithmetic: the `n` evenly spaced
points `k/n` of `[0,1)`. -/
def grid (n : ℕ) : List ℚ := (List.range n).map (fun k : ℕ => (k : ℚ) / (n : ℚ))

/-- numpy boolean-mask selection `l[np.arange(n) % K == cv]` (for
`keep = true`) respectively `l[np.arange(n) % K != cv]` (for `keep = false`). -/
def maskSel (n K cv : ℕ) (keep : Bool) (l : List α) : List α :=
  (((List.range n).zip l).filter (fun p => (decide (p.1 % K = cv)) == keep)).map (fun p => p.2)

/-- The indices kept by `maskSel`. -/
def maskIdx (n K cv : ℕ) (keep : Bool) : List ℕ :=
  (List.range n).filter (fun i => (decide (i % K = cv)) == keep)

/-- numpy fancy indexing `l[idx]`. -/
def selectIdx (l : List α) (idx : List ℕ) : List α := idx.filterMap (fun i => l.get? i)

/-- sklearn `KFold(n_splits=K)` without shuffling: start of the contiguous
validation block of fold `i` over `n` samples. -/
def kfoldStart (n K i : ℕ) : ℕ := i * (n / K) + min i (n % K)

/-- Size of fold `i`'s validation block: the first `n % K` folds get one
extra element. -/
def kfoldSize (n K i : ℕ) : ℕ := n / K + (if i < n % K then 1 else 0)

/-- Membership of index `j` in fold `i`'s validation block. -/
def kfoldInBlock (n K i j : ℕ) : Bool :=
  decide (kfoldStart n K i ≤ j) && decide (j < kfoldStart n K i + kfoldSize n K i)

/-- The (sorted) validation indices of fold `i`. -/
def kfoldValidIdx (n K i : ℕ) : List ℕ :=
  (List.range n).filter (fun j => kfoldInBlock n K i j)

/-- The (sorted) training indices of fold `i`: everything outside the block. -/
def kfoldTrainIdx (n K i : ℕ) : List ℕ :=
  (List.range n).filter (fun j => !kfoldInBlock n K i j)

/-- One cross-validation fold: training rows/labels, validation rows/labels. -/
structure Fold where
  Xt : List Row
  yt : List ℚ
  Xv : List Row
  yv : List ℚ
  deriving DecidableEq

/-- The dataset-holding fields of an `MLTuning` instance once `make_dataset`
has run (`self.X`, `self.y`, the train/test split, the four cross-validation
lists, and `self._cross_val_num`). -/
structure MLState where
  X : List Row
  y : List ℚ
  X_train : List Row
  y_train : List ℚ
  X_test : List Row
  y_test : List ℚ
  X_train_cv : List (List Row)
  y_train_cv : List (List ℚ)
  X_valid_cv : List (List Row)
  y_valid_cv : List (List ℚ)
  cross_val_num : ℕ
  deriving DecidableEq

/-- numpy `np.sum(f(X), axis=1).ravel()`: per-row sum of `f` over the entries. -/
def rowLabels (f : ℚ → ℚ) (X : List Row) : List ℚ := X.map (fun r => (r.map f).sum)

/-- The `target_function` dictionary lookup of `make_dataset`; the three
synthetic target functions (`np.sin`, `np.cos`, `np.square`) are abstract
parameters; a missing key is a Python `KeyError`. -/
def targetFn (sinF cosF squareF : ℚ → ℚ) (dataset : String) : Except PyErr (ℚ → ℚ) :=
  if dataset = "artificial" then .ok sinF
  else if dataset = "artificialcos" then .ok cosF
  else if dataset = "artificialsquare" then .ok squareF
  else .error (.keyError dataset)

/-- Sequencing of a fallible computation over a list, mirroring the Python
`for` loop that appends one fold per iteration. -/
def exceptMapList (f : α → Except PyErr β) : List α → Except PyErr (List β)
  | [] => .ok []
  | a :: l =>
    match f a with
    | .error e => .error e
    | .ok b =>
      match exceptMapList f l with
      | .error e => .error e
      | .ok bs => .ok (b :: bs)

/-- Body of the synthetic cross-validation loop for one `cv` value:
training rows are the `index % K != cv` rows of `X`, validation rows the
`index % K == cv` rows (then `reshape(-1, d)`), and both label vectors are
recomputed with the dataset-selected target function `tf`. -/
def synthFold (tf : ℚ → ℚ) (X : List Row) (nd K d cv : ℕ) : Except PyErr Fold :=
  let Xtr := maskSel nd K cv false X
  let ytr := rowLabels tf Xtr
  match reshapeCols d (maskSel nd K cv true X).flatten with
  | .error e => .error e
  | .ok Xv => .ok ⟨Xtr, ytr, Xv, rowLabels tf Xv⟩

/-- The synthetic branch of `MLTuning.make_dataset`: `nd` is `self.num_data`
(120), `K` is `self._cross_val_num` (10), `d` the data dimension;
`shuffleRows` and `shuffleScalars` stand for the two `rng.shuffle` calls
(the training grid is reshaped before shuffling, the test grid after).
Note `self.y` / `self.y_train` are computed with `sinF` unconditionally,
while fold and test labels use the selected target function. -/
def makeDatasetArtificial (sinF cosF squareF : ℚ → ℚ)
    (shuffleRows : List Row → List Row) (shuffleScalars : List ℚ → List ℚ)
    (nd K d : ℕ) (dataset : String) : Except PyErr MLState :=
  match reshapeCols d (grid (nd * d)) with
  | .error e => .error e
  | .ok X0 =>
    let X := shuffleRows X0
    match targetFn sinF cosF squareF dataset with
    | .error e => .error e
    | .ok tf =>
      let y := rowLabels sinF X
      match exceptMapList (synthFold tf X nd K d) (List.range K) with
      | .error e => .error e
      | .ok fs =>
        match reshapeCols d (shuffleScalars (grid 60000)) with
        | .error e => .error e
        | .ok Xte =>
          .ok { X := X, y := y, X_train := X, y_train := y,
                X_test := Xte, y_test := rowLabels tf Xte,
                X_train_cv := fs.map Fold.Xt, y_train_cv := fs.map Fold.yt,
                X_valid_cv := fs.map Fold.Xv, y_valid_cv := fs.map Fold.yv,
                cross_val_num := K }

/-- The `KFold(n_splits=K).split(X_train)` loop of the real-data branch:
fold `i` selects the rows outside / inside the `i`-th contiguous block. -/
def realFolds (X_train : List Row) (y_train : List ℚ) (K : ℕ) : List Fold :=
  (List.range K).map (fun i =>
    ⟨selectIdx X_train (kfoldTrainIdx X_train.length K i),
     selectIdx y_train (kfoldTrainIdx X_train.length K i),
     selectIdx X_train (kfoldValidIdx X_train.length K i),
     selectIdx y_train (kfoldValidIdx X_train.length K i)⟩)

/-- The state assembled by the real-data branch on success. -/
def realState (loadData : List Row × List ℚ)
    (shuffleColumns : List Row → List Row)
    (tts : List Row → List ℚ → List Row × List Row × List ℚ × List ℚ)
    (K : ℕ) : MLState :=
  let X := shuffleColumns loadData.1
  let y := loadData.2
  let s := tts X y
  let fs := realFolds s.1 s.2.2.1 K
  { X := X, y := y, X_train := s.1, y_train := s.2.2.1,
    X_test := s.2.1, y_test := s.2.2.2,
    X_train_cv := fs.map Fold.Xt, y_train_cv := fs.map Fold.yt,
    X_valid_cv := fs.map Fold.Xv, y_valid_cv := fs.map Fold.yv,
    cross_val_num := K }

/-- The real-data branch of `MLTuning.make_dataset`: `loadData` models the
external sklearn dataset loader, `shuffleColumns` the in-place
`rng.shuffle(data[0].T)` (a column permutation of the feature matrix), and
`tts` the external `train_test_split(X, y, test_size=0.5, random_state=42)`.
The `KFold` splitting over the training half is modelled exactly
(contiguous index blocks, no shuffling); sklearn raises when there are fewer
samples than splits. -/
def makeDatasetReal (loadData : List Row × List ℚ)
    (shuffleColumns : List Row → List Row)
    (tts : List Row → List ℚ → List Row × List Row × List ℚ × List ℚ)
    (K : ℕ) (data_dimension : Option ℕ) (dataset : String) : Except PyErr MLState :=
  if ¬(dataset = "boston" ∨ dataset = "diabetes") then .error (.assertionError "dataset")
  else if data_dimension.isSome then .error (.assertionError "dimension")
  else if (tts (shuffleColumns loadData.1) loadData.2).1.length < K then
    .error (.valueError "n_splits cannot be greater than the number of samples")
  else .ok (realState loadData shuffleColumns tts K)

/-- The dispatch of `MLTuning.make_dataset`: the real-data branch runs unless
the dataset name starts with `"artificial"`; the synthetic branch first
asserts `data_dimension is not None`. -/
def makeDataset (sinF cosF squareF : ℚ → ℚ)
    (shuffleRows : List Row → List Row) (shuffleScalars : List ℚ → List ℚ)
    (loadData : List Row × List ℚ) (shuffleColumns : List Row → List Row)
    (tts : List Row → List ℚ → List Row × List Row × List ℚ × List ℚ)
    (nd K : ℕ) (data_dimension : Option ℕ) (dataset : String) : Except PyErr MLState :=
  if strStarts "artificial" dataset = false then
    makeDatasetReal loadData shuffleColumns tts K data_dimension dataset
  else
    match data_dimension with
    | none => .error (.assertionError "Pb with dataset in dimension None")
    | some d => makeDatasetArtificial sinF cosF squareF shuffleRows shuffleScalars nd K d dataset

/-- The constructor arguments of the regressor built by
`_ml_parametrization` (the fixed `random_state=0` literal is omitted). -/
inductive RegrSpec where
  | dt (max_depth : PyNum) (criterion : String) (min_samples_split : ℚ)
  | mlp (alpha : ℚ) (activation : String) (solver : String) (learning_rate : String)
  deriving DecidableEq

/-- The nine keyword arguments of `MLTuning._ml_parametrization`. -/
structure Config where
  depth : PyNum
  criterion : String
  min_samples_split : ℚ
  solver : String
  activation : String
  alpha : ℚ
  learning_rate : String
  regressor : String
  noise_free : Bool
  deriving DecidableEq

/-- The regressor dispatch of `_ml_parametrization`: `decision_tree` builds a
tree spec from the tree fields, `mlp` a net spec from the net fields, and any
other family string raises `ValueError(f"Unknown regressor {regressor}.")`. -/
def buildRegr (c : Config) : Except PyErr RegrSpec :=
  if c.regressor = "decision_tree" then
    .ok (.dt c.depth c.criterion c.min_samples_split)
  else if c.regressor = "mlp" then
    .ok (.mlp c.alpha c.activation c.solver c.learning_rate)
  else .error (.valueError "Unknown regressor")

/-- sklearn `mean_squared_error`: mean of the squared differences. -/
def mse (yTrue yPred : List ℚ) : ℚ :=
  (((yTrue.zip yPred).map (fun p => (p.1 - p.2) ^ 2)).sum) / (yTrue.length : ℚ)

/-- External regressor capability (`DecisionTreeRegressor` / `MLPRegressor`):
`new` is the constructor, `fit` transforms the instance state, `predict`
reads it.  `S` is the type of regressor instance states. -/
structure Backend (S : Type) where
  new : RegrSpec → S
  fit : S → List Row → List ℚ → S
  predict : S → List Row → List ℚ

/-- One observable call to the external regressor. -/
inductive Event where
  | newEv (spec : RegrSpec)
  | fitEv (X : List Row) (y : List ℚ)
  | predictEv (X : List Row)
  deriving DecidableEq

/-- Python `zip` over the four cross-validation lists (truncating). -/
def zip4 : List (List Row) → List (List ℚ) → List (List Row) → List (List ℚ) → List Fold
  | a :: as, b :: bs, c :: cs, d :: ds => ⟨a, b, c, d⟩ :: zip4 as bs cs ds
  | _, _, _, _ => []

/-- The fold sequence `zip(X_train_cv, y_train_cv, X_valid_cv, y_valid_cv)`. -/
def folds4 (st : MLState) : List Fold := zip4 st.X_train_cv st.y_train_cv st.X_valid_cv st.y_valid_cv

/-- The cross-validation loop of `_ml_parametrization`: per fold, first
`assert isinstance(depth, int)`, then fit the (threaded) regressor state on
the fold's training subset, predict on the validation subset and accumulate
the mean squared error.  Returns the trace of backend calls and the
accumulated sum (or the propagated assertion failure). -/
def cvFold {S : Type} (B : Backend S) (s : S) (depth : PyNum) :
    List Fold → ℚ → List Event × Except PyErr ℚ
  | [], acc => ([], .ok acc)
  | f :: rest, acc =>
    if depth.isInt then
      let s1 := B.fit s f.Xt f.yt
      let pred := B.predict s1 f.Xv
      let r := cvFold B s1 depth rest (acc + mse f.yv pred)
      (.fitEv f.Xt f.yt :: .predictEv f.Xv :: r.1, r.2)
    else ([], .error (.assertionError "depth"))

/-- The body of `MLTuning._ml_parametrization` on a materialized dataset state `st` (the
lazy `make_dataset` call has already produced `st`).  Builds the regressor
once; in `noise_free` mode fits it on `self.X`/`self.y` and returns the mean
squared error of its predictions on the test set; otherwise runs the
cross-validation loop and divides the accumulated sum by
`self._cross_val_num`.  Also returns the trace of backend calls. -/
def evalML {S : Type} (B : Backend S) (st : MLState) (c : Config) :
    List Event × Except PyErr ℚ :=
  match buildRegr c with
  | .error e => ([], .error e)
  | .ok spec =>
    let s0 := B.new spec
    if c.noise_free then
      let s1 := B.fit s0 st.X st.y
      let pred := B.predict s1 st.X_test
      ([.newEv spec, .fitEv st.X st.y, .predictEv st.X_test], .ok (mse st.y_test pred))
    else
      let r := cvFold B s0 c.depth (folds4 st) 0
      (.newEv spec :: r.1, r.2.map (fun v => v / (st.cross_val_num : ℚ)))

/-- A Python kwargs dictionary over the nine parameter names
(each key present or absent). -/
structure PConf where
  depth : Option PyNum := none
  criterion : Option String := none
  min_samples_split : Option ℚ := none
  solver : Option String := none
  activation : Option String := none
  alpha : Option ℚ := none
  learning_rate : Option String := none
  regressor : Option String := none
  noise_free : Option Bool := none
  deriving DecidableEq

/-- Per-key dictionary update: the second argument wins when present. -/
def oup (b u : Option α) : Option α := match u with | some x => some x | none => b

/-- Python `dict(base, **upd)` / `base.update(upd)`: `upd` wins on conflicts. -/
def PConf.update (base upd : PConf) : PConf :=
  ⟨oup base.depth upd.depth, oup base.criterion upd.criterion,
   oup base.min_samples_split upd.min_samples_split, oup base.solver upd.solver,
   oup base.activation upd.activation, oup base.alpha upd.alpha,
   oup base.learning_rate upd.learning_rate, oup base.regressor upd.regressor,
   oup base.noise_free upd.noise_free⟩

/-- A call to `_ml_parametrization` with keyword dictionary `p`: all nine
arguments must be bound (a missing one is a Python `TypeError`, `none` here). -/
def PConf.toConfig (p : PConf) : Option Config :=
  p.depth.bind fun depth =>
  p.criterion.bind fun criterion =>
  p.min_samples_split.bind fun min_samples_split =>
  p.solver.bind fun solver =>
  p.activation.bind fun activation =>
  p.alpha.bind fun alpha =>
  p.learning_rate.bind fun learning_rate =>
  p.regressor.bind fun regressor =>
  p.noise_free.map fun noise_free =>
  ⟨depth, criterion, min_samples_split, solver, activation, alpha,
   learning_rate, regressor, noise_free⟩

/-- The pinned `params` of the `decision_tree_depth` family. -/
def dtDepthParams : PConf :=
  { noise_free := some false, criterion := some "mse",
    min_samples_split := some ((1 : ℚ)/100000),
    regressor := some "decision_tree", alpha := some 1, learning_rate := some "no",
    activation := some "no", solver := some "no" }

/-- The pinned `params` of the `any` family. -/
def anyParams : PConf := { noise_free := some false }

/-- The pinned `params` of the `decision_tree` family. -/
def dtParams : PConf :=
  { noise_free := some false, alpha := some 1, learning_rate := some "no",
    regressor := some "decision_tree", activation := some "no", solver := some "no" }

/-- The `evalparams` of the `decision_tree` family:
`dict(params, criterion="mse", min_samples_split=0.00001)`. -/
def dtEvalParams : PConf :=
  PConf.update dtParams
    { criterion := some "mse", min_samples_split := some ((1 : ℚ)/100000) }

/-- The pinned `params` of the `mlp` family. -/
def mlpParams : PConf :=
  { noise_free := some false, regressor := some "mlp", depth := some (.int (-3)),
    criterion := some "no", min_samples_split := some ((1 : ℚ)/10) }

/-- The construction-time data of an `MLTuning` instance that the two
evaluation entry points read. -/
structure InitData where
  params : PConf
  evalparams : PConf
  overfitter : Bool
  cross_val_num : ℕ
  num_data : ℕ
  data_dimension : Option ℕ
  dataset : String
  deriving DecidableEq

/-- The common tail of `MLTuning.__init__` once the family dispatch picked
`params` (and possibly `evalparams`): `evalparams` defaults to a copy of
`params` (`if not evalparams: evalparams = dict(params)`), then
`evalparams["noise_free"] = not overfitter`; `num_data = 120`,
`_cross_val_num = 10`. -/
def mkInit (params : PConf) (ev0 : Option PConf) (ov : Bool) (dd : Option ℕ)
    (ds : String) : InitData :=
  ⟨params, { (ev0.getD params) with noise_free := some (!ov) }, ov, 10, 120, dd, ds⟩

/-- The body of `MLTuning.__init__`: asserts
`bool("artificial" in dataset) == bool(data_dimension is not None)`, then
dispatches on the regressor family (an unknown family is `assert False`).
The search-space (`parametrization`) objects are not modelled. -/
def initML (regressor : String) (data_dimension : Option ℕ) (dataset : String)
    (overfitter : Bool) : Except PyErr InitData :=
  if strHas "artificial" dataset ≠ data_dimension.isSome then
    .error (.assertionError "dimension mismatch")
  else if regressor = "decision_tree_depth" then
    .ok (mkInit dtDepthParams none overfitter data_dimension dataset)
  else if regressor = "any" then
    .ok (mkInit anyParams none overfitter data_dimension dataset)
  else if regressor = "decision_tree" then
    .ok (mkInit dtParams (some dtEvalParams) overfitter data_dimension dataset)
  else if regressor = "mlp" then
    .ok (mkInit mlpParams none overfitter data_dimension dataset)
  else .error (.assertionError "Problem type undefined")

/-- The objective entry point: `partial(self._ml_parametrization, **params)`
called with the caller's kwargs, which win on conflicting keys. -/
def objectiveCall {S : Type} (I : InitData) (B : Backend S) (st : MLState) (kw : PConf) :
    Option (List Event × Except PyErr ℚ) :=
  (PConf.update I.params kw).toConfig.map (fun c => evalML B st c)

/-- The report entry point `MLTuning.evaluation_function`: the caller's kwargs are overridden by the
construction-time `self._evalparams` (`kwargs.update(self._evalparams)`). -/
def reportCall {S : Type} (I : InitData) (B : Backend S) (st : MLState) (kw : PConf) :
    Option (List Event × Except PyErr ℚ) :=
  (PConf.update kw I.evalparams).toConfig.map (fun c => evalML B st c)

/-- The per-fold MSE values exactly as the loop computes them (one regressor
state threaded through all folds). -/
def foldMSEList {S : Type} (B : Backend S) (s : S) : List Fold → List ℚ
  | [] => []
  | f :: rest =>
    let s1 := B.fit s f.Xt f.yt
    mse f.yv (B.predict s1 f.Xv) :: foldMSEList B s1 rest

/-- The per-fold MSE values under a fresh-instance-per-fold protocol. -/
def freshFoldMSEs {S : Type} (B : Backend S) (spec : RegrSpec) : List Fold → List ℚ
  | [] => []
  | f :: rest =>
    mse f.yv (B.predict (B.fit (B.new spec) f.Xt f.yt) f.Xv) :: freshFoldMSEs B spec rest

/-- Number of regressor constructions recorded in a trace. -/
def countNew (tr : List Event) : ℕ :=
  (tr.filter (fun e => match e with | .newEv _ => true | _ => false)).length

/-- Number of fit calls recorded in a trace. -/
def countFit (tr : List Event) : ℕ :=
  (tr.filter (fun e => match e with | .fitEv _ _ => true | _ => false)).length

/-- The backend-call trace produced by the cross-validation loop. -/
def cvTrace : List Fold → List Event
  | [] => []
  | f :: rest => .fitEv f.Xt f.yt :: .predictEv f.Xv :: cvTrace rest

/-! ### Basic lemmas about the list-level helpers -/

theorem chunksF_nil (d fuel : ℕ) : chunksF d fuel ([] : List α) = [] := by
  cases fuel <;> rfl

theorem chunksF_flatten {d : ℕ} (hd : 0 < d) :
    ∀ (fuel : ℕ) (l : List α), l.length ≤ fuel → (chunksF d fuel l).flatten = l := by
  intro fuel
  induction fuel with
  | zero =>
    intro l hl
    cases l with
    | nil => rfl
    | cons a t => simp at hl
  | succ n ih =>
    intro l hl
    cases l with
    | nil => rfl
    | cons a t =>
      simp only [chunksF, List.flatten_cons]
      rw [ih ((a :: t).drop d)
        (by simp only [List.length_drop, List.length_cons] at hl ⊢; omega)]
      exact List.take_append_drop d (a :: t)

theorem chunks_flatten {d : ℕ} (hd : 0 < d) (l : List α) : (chunks d l).flatten = l :=
  chunksF_flatten hd l.length l le_rfl

theorem chunksF_mem_length {d : ℕ} (hd : 0 < d) :
    ∀ (fuel : ℕ) (l : List α), d ∣ l.length → ∀ r ∈ chunksF d fuel l, r.length = d := by
  intro fuel
  induction fuel with
  | zero =>
    intro l _ r hr
    cases l with
    | nil => simp [chunksF] at hr
    | cons a t => simp [chunksF] at hr
  | succ n ih =>
    intro l hdvd r hr
    cases l with
    | nil => simp [chunksF] at hr
    | cons a t =>
      simp only [chunksF, List.mem_cons] at hr
      rcases hr with h | h
      · subst h
        have hle : d ≤ (a :: t).length := Nat.le_of_dvd (by simp) hdvd
        simp only [List.length_take, List.length_cons] at hle ⊢
        omega
      · exact ih _ (by simpa [List.length_drop] using Nat.dvd_sub' hdvd dvd_rfl) r h

theorem chunks_mem_length {d : ℕ} (hd : 0 < d) {l : List α} (hdvd : d ∣ l.length) :
    ∀ r ∈ chunks d l, r.length = d :=
  chunksF_mem_length hd l.length l hdvd

theorem chunksF_length {d : ℕ} (hd : 0 < d) :
    ∀ (fuel : ℕ) (l : List α), l.length ≤ fuel → d ∣ l.length →
      (chunksF d fuel l).length = l.length / d := by
  intro fuel
  induction fuel with
  | zero =>
    intro l hl _
    cases l with
    | nil => simp [chunksF]
    | cons a t => simp at hl
  | succ n ih =>
    intro l hl hdvd
    cases l with
    | nil => simp [chunksF]
    | cons a t =>
      obtain ⟨m, hm⟩ := hdvd
      obtain ⟨m1, rfl⟩ : ∃ m1, m = m1 + 1 := by
        cases m with
        | zero => rw [Nat.mul_zero] at hm; simp at hm
        | succ m1 => exact ⟨m1, rfl⟩
      have hlen2 : t.length + 1 = d * (m1 + 1) := by simpa using hm
      have hdroplen : ((a :: t).drop d).length = d * m1 := by
        rw [List.length_drop]
        simp only [List.length_cons]
        rw [hlen2, Nat.mul_succ]
        omega
      simp only [chunksF, List.length_cons]
      rw [ih ((a :: t).drop d)
        (by simp only [List.length_drop, List.length_cons] at hl ⊢; omega)
        (by rw [hdroplen]; exact ⟨m1, rfl⟩)]
      rw [hdroplen, hlen2, Nat.mul_div_cancel_left _ hd, Nat.mul_div_cancel_left _ hd]

theorem chunks_length {d : ℕ} (hd : 0 < d) {l : List α} (hdvd : d ∣ l.length) :
    (chunks d l).length = l.length / d :=
  chunksF_length hd l.length l le_rfl hdvd

theorem flatten_length_of_rows {d : ℕ} :
    ∀ (rows : List (List α)), (∀ r ∈ rows, r.length = d) →
      rows.flatten.length = rows.length * d := by
  intro rows
  induction rows with
  | nil => simp
  | cons r rest ih =>
    intro h
    simp only [List.flatten_cons, List.length_append, List.length_cons]
    rw [h r (by simp), ih (fun r hr => h r (by simp [hr]))]
    ring

theorem chunksF_of_rows {d : ℕ} (hd : 0 < d) :
    ∀ (rows : List (List α)) (fuel : ℕ), (∀ r ∈ rows, r.length = d) →
      rows.flatten.length ≤ fuel → chunksF d fuel rows.flatten = rows := by
  intro rows
  induction rows with
  | nil => intro fuel _ _; simp [chunksF_nil]
  | cons r rest ih =>
    intro fuel hrows hfuel
    have hr : r.length = d := hrows r (by simp)
    obtain ⟨a, r1, rfl⟩ : ∃ a r1, r = a :: r1 := by
      cases r with
      | nil => simp at hr; omega
      | cons a r1 => exact ⟨a, r1, rfl⟩
    obtain ⟨n, rfl⟩ : ∃ n, fuel = n + 1 := by
      cases fuel with
      | zero => simp [List.flatten_cons] at hfuel
      | succ n => exact ⟨n, rfl⟩
    have htake : (a :: (r1 ++ rest.flatten)).take d = a :: r1 := by
      rw [← List.cons_append, ← hr]; exact List.take_left _ _
    have hdrop : (a :: (r1 ++ rest.flatten)).drop d = rest.flatten := by
      rw [← List.cons_append, ← hr]; exact List.drop_left _ _
    have hfuel2 : rest.flatten.length ≤ n := by
      have h3 : ((a :: r1) ++ rest.flatten).length ≤ n + 1 := hfuel
      rw [List.length_append, hr] at h3
      omega
    show chunksF d (n + 1) (a :: (r1 ++ rest.flatten)) = (a :: r1) :: rest
    simp only [chunksF]
    rw [htake, hdrop, ih n (fun r hmem => hrows r (by simp [hmem])) hfuel2]

theorem chunks_of_rows {d : ℕ} (hd : 0 < d) (rows : List (List α))
    (h : ∀ r ∈ rows, r.length = d) : chunks d rows.flatten = rows :=
  chunksF_of_rows hd rows rows.flatten.length h le_rfl

theorem grid_length (n : ℕ) : (grid n).length = n := by
  unfold grid
  rw [List.length_map, List.length_range]

theorem reshape_grid_ok {d : ℕ} (hd : 0 < d) (nd : ℕ) :
    reshapeCols d (grid (nd * d)) = .ok (chunks d (grid (nd * d))) := by
  have : d ∣ (grid (nd * d)).length := by rw [grid_length]; exact dvd_mul_left d nd
  simp [reshapeCols, hd, this]

theorem maskSel_mem {n K cv : ℕ} {keep : Bool} {l : List α} {a : α}
    (h : a ∈ maskSel n K cv keep l) : a ∈ l := by
  simp only [maskSel, List.mem_map, List.mem_filter] at h
  obtain ⟨p, ⟨hz, _⟩, rfl⟩ := h
  exact (List.of_mem_zip hz).2

theorem maskSel_append_perm (n K cv : ℕ) (l : List α) (hn : l.length = n) :
    (maskSel n K cv false l ++ maskSel n K cv true l).Perm l := by
  unfold maskSel
  rw [← List.map_append]
  have hperm :
      ((((List.range n).zip l).filter (fun p => (decide (p.1 % K = cv)) == false)) ++
        (((List.range n).zip l).filter (fun p => (decide (p.1 % K = cv)) == true))).Perm
        ((List.range n).zip l) := by
    have h1 := List.filter_append_perm
      (fun p : ℕ × α => !(decide (p.1 % K = cv))) ((List.range n).zip l)
    have e1 : ∀ p : ℕ × α,
        ((decide (p.1 % K = cv)) == false) = !(decide (p.1 % K = cv)) := by
      intro p; cases decide (p.1 % K = cv) <;> rfl
    have e2 : ∀ p : ℕ × α,
        ((decide (p.1 % K = cv)) == true) = !(!(decide (p.1 % K = cv))) := by
      intro p; cases decide (p.1 % K = cv) <;> rfl
    simp only [e1, e2]
    exact h1
  have hmap := hperm.map (fun p : ℕ × α => p.2)
  have hsnd : ((List.range n).zip l).map (fun p : ℕ × α => p.2) = l := by
    have := List.map_snd_zip (List.range n) l (by simp [hn])
    simpa [Prod.snd] using this
  rwa [hsnd] at hmap

theorem maskIdx_disjoint {n K cv i : ℕ} (h : i ∈ maskIdx n K cv true) :
    i ∉ maskIdx n K cv false := by
  simp only [maskIdx, List.mem_filter] at h ⊢
  intro hc
  rcases h with ⟨_, h2⟩
  rcases hc with ⟨_, h4⟩
  cases hb : decide (i % K = cv) <;> simp [hb] at h2 h4

theorem selectIdx_range (l : List α) : selectIdx l (List.range l.length) = l := by
  induction l with
  | nil => rfl
  | cons a t ih =>
    rw [List.length_cons, List.range_succ_eq_map]
    simp only [selectIdx, List.filterMap_cons, List.get?_cons_zero, List.filterMap_map]
    have : (fun i => (a :: t).get? i) ∘ Nat.succ = fun i => t.get? i := by
      funext i; simp [Function.comp]
    rw [this]
    exact congrArg (a :: ·) ih

theorem selectIdx_append (l : List α) (i1 i2 : List ℕ) :
    selectIdx l (i1 ++ i2) = selectIdx l i1 ++ selectIdx l i2 :=
  List.filterMap_append _ _ _

theorem kfold_partition (n K i : ℕ) :
    (kfoldTrainIdx n K i ++ kfoldValidIdx n K i).Perm (List.range n) := by
  have h1 := List.filter_append_perm (fun j => kfoldInBlock n K i j) (List.range n)
  exact List.perm_append_comm.trans h1

theorem kfold_disjoint {n K i j : ℕ} (h : j ∈ kfoldValidIdx n K i) :
    j ∉ kfoldTrainIdx n K i := by
  simp only [kfoldValidIdx, kfoldTrainIdx, List.mem_filter] at h ⊢
  intro hc
  rcases h with ⟨_, h2⟩
  rcases hc with ⟨_, h4⟩
  rw [h2] at h4
  simp at h4

theorem kfold_rows_perm (l : List α) (K i : ℕ) :
    (selectIdx l (kfoldTrainIdx l.length K i) ++
      selectIdx l (kfoldValidIdx l.length K i)).Perm l := by
  rw [← selectIdx_append]
  have h1 := (kfold_partition l.length K i).filterMap (fun j => l.get? j)
  have h2 : selectIdx l (List.range l.length) = l := selectIdx_range l
  unfold selectIdx
  calc (List.filterMap (fun j => l.get? j) (kfoldTrainIdx l.length K i ++ kfoldValidIdx l.length K i)).Perm
        (List.filterMap (fun j => l.get? j) (List.range l.length)) := h1
    _ = l := h2

theorem exceptMapList_length {f : α → Except PyErr β} :
    ∀ {l : List α} {bs : List β}, exceptMapList f l = .ok bs → bs.length = l.length := by
  intro l
  induction l with
  | nil => intro bs h; simp [exceptMapList] at h; simp [← h]
  | cons a t ih =>
    intro bs h
    simp only [exceptMapList] at h
    cases hfa : f a with
    | error e => rw [hfa] at h; simp at h
    | ok b =>
      rw [hfa] at h
      cases hft : exceptMapList f t with
      | error e => rw [hft] at h; simp at h
      | ok bs2 =>
        rw [hft] at h
        simp at h
        simp [← h, ih hft]

theorem exceptMapList_get {f : α → Except PyErr β} :
    ∀ {l : List α} {bs : List β}, exceptMapList f l = .ok bs →
      ∀ i, i < l.length → ∃ a b, l.get? i = some a ∧ bs.get? i = some b ∧ f a = .ok b := by
  intro l
  induction l with
  | nil => intro bs _ i hi; simp at hi
  | cons a t ih =>
    intro bs h i hi
    simp only [exceptMapList] at h
    cases hfa : f a with
    | error e => rw [hfa] at h; simp at h
    | ok b =>
      rw [hfa] at h
      cases hft : exceptMapList f t with
      | error e => rw [hft] at h; simp at h
      | ok bs2 =>
        rw [hft] at h
        simp at h
        cases i with
        | zero => exact ⟨a, b, rfl, by simp [← h], hfa⟩
        | succ j =>
          obtain ⟨a2, b2, h1, h2, h3⟩ := ih hft j (by simpa using hi)
          exact ⟨a2, b2, by simpa using h1, by simp [← h]; simpa using h2, h3⟩

theorem exceptMapList_mem {f : α → Except PyErr β} {P : β → Prop}
    (hP : ∀ a b, f a = .ok b → P b) :
    ∀ {l : List α} {bs : List β}, exceptMapList f l = .ok bs → ∀ b ∈ bs, P b := by
  intro l
  induction l with
  | nil =>
    intro bs h b hb
    simp only [exceptMapList, Except.ok.injEq] at h
    subst h
    simp at hb
  | cons a t ih =>
    intro bs h b hb
    simp only [exceptMapList] at h
    cases hfa : f a with
    | error e => rw [hfa] at h; simp at h
    | ok b1 =>
      rw [hfa] at h
      cases hft : exceptMapList f t with
      | error e => rw [hft] at h; simp at h
      | ok bs2 =>
        rw [hft] at h
        simp at h
        rw [← h] at hb
        rcases List.mem_cons.mp hb with rfl | hmem
        · exact hP a b hfa
        · exact ih hft b hmem

theorem exceptMapList_ok_of_forall {f : α → Except PyErr β}
    (h : ∀ a, ∃ b, f a = .ok b) :
    ∀ l : List α, ∃ bs, exceptMapList f l = .ok bs := by
  intro l
  induction l with
  | nil => exact ⟨[], rfl⟩
  | cons a t ih =>
    obtain ⟨b, hb⟩ := h a
    obtain ⟨bs, hbs⟩ := ih
    refine ⟨b :: bs, ?_⟩
    simp only [exceptMapList]
    rw [hb, hbs]

theorem zip4_maps (fs : List Fold) :
    zip4 (fs.map Fold.Xt) (fs.map Fold.yt) (fs.map Fold.Xv) (fs.map Fold.yv) = fs := by
  induction fs with
  | nil => rfl
  | cons f rest ih =>
    show (⟨f.Xt, f.yt, f.Xv, f.yv⟩ : Fold) ::
        zip4 (rest.map Fold.Xt) (rest.map Fold.yt) (rest.map Fold.Xv) (rest.map Fold.yv)
      = f :: rest
    rw [ih]

/-! ### Characterizations of the evaluator -/

theorem cvFold_ok {S : Type} (B : Backend S) {depth : PyNum} (hint : depth.isInt = true) :
    ∀ (fs : List Fold) (s : S) (acc : ℚ),
      cvFold B s depth fs acc = (cvTrace fs, .ok (acc + (foldMSEList B s fs).sum)) := by
  intro fs
  induction fs with
  | nil => intro s acc; simp [cvFold, cvTrace, foldMSEList]
  | cons f rest ih =>
    intro s acc
    simp only [cvFold, hint, if_true]
    rw [ih]
    simp [cvTrace, foldMSEList, add_assoc]

theorem cvFold_assertErr {S : Type} (B : Backend S) {depth : PyNum} (hint : depth.isInt = false)
    (s : S) (f : Fold) (rest : List Fold) (acc : ℚ) :
    cvFold B s depth (f :: rest) acc = ([], .error (.assertionError "depth")) := by
  simp [cvFold, hint]

theorem evalML_valueErr {S : Type} (B : Backend S) (st : MLState) {c : Config} {e : PyErr}
    (h : buildRegr c = .error e) : evalML B st c = ([], .error e) := by
  simp [evalML, h]

theorem evalML_noise_free {S : Type} (B : Backend S) (st : MLState) {c : Config}
    {spec : RegrSpec} (hspec : buildRegr c = .ok spec) (hnf : c.noise_free = true) :
    evalML B st c =
      ([.newEv spec, .fitEv st.X st.y, .predictEv st.X_test],
       .ok (mse st.y_test (B.predict (B.fit (B.new spec) st.X st.y) st.X_test))) := by
  simp [evalML, hspec, hnf]

theorem evalML_cv {S : Type} (B : Backend S) (st : MLState) {c : Config} {spec : RegrSpec}
    (hspec : buildRegr c = .ok spec) (hnf : c.noise_free = false)
    (hint : c.depth.isInt = true) :
    evalML B st c =
      (.newEv spec :: cvTrace (folds4 st),
       .ok ((foldMSEList B (B.new spec) (folds4 st)).sum / (st.cross_val_num : ℚ))) := by
  simp only [evalML, hspec, hnf, Bool.false_eq_true, if_false]
  rw [cvFold_ok B hint]
  simp [Except.map]

theorem evalML_cv_assert {S : Type} (B : Backend S) (st : MLState) {c : Config}
    {spec : RegrSpec} (hspec : buildRegr c = .ok spec) (hnf : c.noise_free = false)
    (hint : c.depth.isInt = false) (hne : folds4 st ≠ []) :
    evalML B st c = ([.newEv spec], .error (.assertionError "depth")) := by
  obtain ⟨f, rest, hfr⟩ : ∃ f rest, folds4 st = f :: rest := by
    cases hf : folds4 st with
    | nil => exact absurd hf hne
    | cons f rest => exact ⟨f, rest, rfl⟩
  simp [evalML, hspec, hnf, hfr, cvFold_assertErr B hint, Except.map]

theorem cvTrace_countNew (fs : List Fold) : countNew (cvTrace fs) = 0 := by
  induction fs with
  | nil => rfl
  | cons f rest ih => simpa [cvTrace, countNew, List.filter] using ih

theorem cvTrace_countFit (fs : List Fold) : countFit (cvTrace fs) = fs.length := by
  induction fs with
  | nil => rfl
  | cons f rest ih => simpa [cvTrace, countFit, List.filter] using ih

theorem foldMSEList_length {S : Type} (B : Backend S) :
    ∀ (s : S) (fs : List Fold), (foldMSEList B s fs).length = fs.length := by
  intro s fs
  induction fs generalizing s with
  | nil => rfl
  | cons f rest ih => simp [foldMSEList, ih]

/-! ### Inversion of the dataset constructors -/

theorem reshapeCols_ok {d : ℕ} {l : List α} {rows : List (List α)}
    (h : reshapeCols d l = .ok rows) : rows = chunks d l ∧ 0 < d ∧ d ∣ l.length := by
  unfold reshapeCols at h
  split at h
  · next hc =>
    simp only [Except.ok.injEq] at h
    exact ⟨h.symm, hc⟩
  · simp at h

theorem synthFold_ok {tf : ℚ → ℚ} {X : List Row} {nd K d cv : ℕ} {fold : Fold}
    (h : synthFold tf X nd K d cv = .ok fold) :
    fold.Xt = maskSel nd K cv false X ∧ fold.yt = rowLabels tf fold.Xt ∧
    fold.Xv = chunks d (maskSel nd K cv true X).flatten ∧
    fold.yv = rowLabels tf fold.Xv := by
  unfold synthFold at h
  split at h
  · simp at h
  · next Xv hXv =>
    obtain ⟨hchunks, _, _⟩ := reshapeCols_ok hXv
    simp only [Except.ok.injEq] at h
    subst h
    exact ⟨rfl, rfl, hchunks, rfl⟩

theorem synthFold_succeeds {d : ℕ} (hd : 0 < d) (tf : ℚ → ℚ) {X : List Row}
    (hrows : ∀ r ∈ X, r.length = d) (nd K cv : ℕ) :
    synthFold tf X nd K d cv =
      .ok ⟨maskSel nd K cv false X, rowLabels tf (maskSel nd K cv false X),
           maskSel nd K cv true X, rowLabels tf (maskSel nd K cv true X)⟩ := by
  have hsub : ∀ r ∈ maskSel nd K cv true X, r.length = d :=
    fun r hr => hrows r (maskSel_mem hr)
  have hflat : (maskSel nd K cv true X).flatten.length = (maskSel nd K cv true X).length * d :=
    flatten_length_of_rows _ hsub
  have hre : reshapeCols d (maskSel nd K cv true X).flatten =
      .ok (maskSel nd K cv true X) := by
    unfold reshapeCols
    rw [if_pos ⟨hd, by rw [hflat]; exact dvd_mul_left d _⟩]
    rw [chunks_of_rows hd _ hsub]
  unfold synthFold
  rw [hre]

theorem mkArt_ok {sinF cosF squareF : ℚ → ℚ} {σr : List Row → List Row}
    {σs : List ℚ → List ℚ} {nd K d : ℕ} {ds : String} {st : MLState}
    (h : makeDatasetArtificial sinF cosF squareF σr σs nd K d ds = .ok st) :
    ∃ tf fs Xte,
      targetFn sinF cosF squareF ds = .ok tf ∧
      exceptMapList (synthFold tf (σr (chunks d (grid (nd * d)))) nd K d)
        (List.range K) = .ok fs ∧
      reshapeCols d (σs (grid 60000)) = .ok Xte ∧
      st = { X := σr (chunks d (grid (nd * d))),
             y := rowLabels sinF (σr (chunks d (grid (nd * d)))),
             X_train := σr (chunks d (grid (nd * d))),
             y_train := rowLabels sinF (σr (chunks d (grid (nd * d)))),
             X_test := Xte, y_test := rowLabels tf Xte,
             X_train_cv := fs.map Fold.Xt, y_train_cv := fs.map Fold.yt,
             X_valid_cv := fs.map Fold.Xv, y_valid_cv := fs.map Fold.yv,
             cross_val_num := K } := by
  unfold makeDatasetArtificial at h
  cases hX0 : reshapeCols d (grid (nd * d)) with
  | error e => rw [hX0] at h; simp at h
  | ok X0 =>
    rw [hX0] at h
    obtain ⟨hX0eq, hd, hdvd⟩ := reshapeCols_ok hX0
    subst hX0eq
    simp only at h
    cases htf : targetFn sinF cosF squareF ds with
    | error e => rw [htf] at h; simp at h
    | ok tf =>
      rw [htf] at h
      simp only at h
      cases hfs : exceptMapList (synthFold tf (σr (chunks d (grid (nd * d)))) nd K d)
          (List.range K) with
      | error e => rw [hfs] at h; simp at h
      | ok fs =>
        rw [hfs] at h
        simp only at h
        cases hXte : reshapeCols d (σs (grid 60000)) with
        | error e => rw [hXte] at h; simp at h
        | ok Xte =>
          rw [hXte] at h
          simp only [Except.ok.injEq] at h
          exact ⟨tf, fs, Xte, rfl, hfs, rfl, h.symm⟩

theorem mkReal_ok {loadData : List Row × List ℚ} {colS : List Row → List Row}
    {tts : List Row → List ℚ → List Row × List Row × List ℚ × List ℚ}
    {K : ℕ} {dd : Option ℕ} {ds : String} {st : MLState}
    (h : makeDatasetReal loadData colS tts K dd ds = .ok st) :
    (ds = "boston" ∨ ds = "diabetes") ∧ dd = none ∧
    K ≤ (tts (colS loadData.1) loadData.2).1.length ∧
    st = realState loadData colS tts K := by
  unfold makeDatasetReal at h
  split at h
  · simp at h
  · next hds =>
    split at h
    · simp at h
    · next hdd =>
      split at h
      · simp at h
      · next hn =>
        simp only [Except.ok.injEq] at h
        refine ⟨not_not.mp hds, ?_, by omega, h.symm⟩
        cases dd with
        | none => rfl
        | some v => simp at hdd

theorem initML_ok {reg : String} {dd : Option ℕ} {ds : String} {ov : Bool} {I : InitData}
    (h : initML reg dd ds ov = .ok I) :
    strHas "artificial" ds = dd.isSome ∧
    I.cross_val_num = 10 ∧ I.num_data = 120 ∧ I.overfitter = ov ∧
    I.data_dimension = dd ∧ I.dataset = ds ∧
    ((reg = "decision_tree_depth" ∧ I = mkInit dtDepthParams none ov dd ds) ∨
     (reg = "any" ∧ I = mkInit anyParams none ov dd ds) ∨
     (reg = "decision_tree" ∧ I = mkInit dtParams (some dtEvalParams) ov dd ds) ∨
     (reg = "mlp" ∧ I = mkInit mlpParams none ov dd ds)) := by
  unfold initML at h
  split at h
  · simp at h
  · next hdim =>
    have hdim2 : strHas "artificial" ds = dd.isSome := by
      by_contra hc
      exact hdim hc
    split at h
    · next h1 =>
      simp only [Except.ok.injEq] at h
      subst h
      exact ⟨hdim2, rfl, rfl, rfl, rfl, rfl, Or.inl ⟨h1, rfl⟩⟩
    · next h1 =>
      split at h
      · next h2 =>
        simp only [Except.ok.injEq] at h
        subst h
        exact ⟨hdim2, rfl, rfl, rfl, rfl, rfl, Or.inr (Or.inl ⟨h2, rfl⟩)⟩
      · next h2 =>
        split at h
        · next h3 =>
          simp only [Except.ok.injEq] at h
          subst h
          exact ⟨hdim2, rfl, rfl, rfl, rfl, rfl, Or.inr (Or.inr (Or.inl ⟨h3, rfl⟩))⟩
        · next h3 =>
          split at h
          · next h4 =>
            simp only [Except.ok.injEq] at h
            subst h
            exact ⟨hdim2, rfl, rfl, rfl, rfl, rfl, Or.inr (Or.inr (Or.inr ⟨h4, rfl⟩))⟩
          · simp at h

/-! ### Dictionary-update lemmas for the two evaluation entry points -/

theorem oup_none_right (b : Option α) : oup b none = b := rfl

theorem oup_none_left (u : Option α) : oup none u = u := by cases u <;> rfl

theorem oup_some (b : Option α) (x : α) : oup b (some x) = some x := rfl

theorem report_absorb_dtDepth (ov : Bool) (kw : PConf) :
    PConf.update kw (mkInit dtDepthParams none ov dd ds).evalparams =
      PConf.update (PConf.update dtDepthParams kw)
        (mkInit dtDepthParams none ov dd ds).evalparams := by
  cases kw
  simp [PConf.update, mkInit, dtDepthParams, Option.getD, oup_none_left, oup_some,
    oup_none_right]

theorem report_absorb_any (ov : Bool) (kw : PConf) :
    PConf.update kw (mkInit anyParams none ov dd ds).evalparams =
      PConf.update (PConf.update anyParams kw)
        (mkInit anyParams none ov dd ds).evalparams := by
  cases kw
  simp [PConf.update, mkInit, anyParams, Option.getD, oup_none_left, oup_some,
    oup_none_right]

theorem report_absorb_dt (ov : Bool) (kw : PConf) :
    PConf.update kw (mkInit dtParams (some dtEvalParams) ov dd ds).evalparams =
      PConf.update (PConf.update dtParams kw)
        (mkInit dtParams (some dtEvalParams) ov dd ds).evalparams := by
  cases kw
  simp [PConf.update, mkInit, dtParams, dtEvalParams, Option.getD, oup_none_left, oup_some,
    oup_none_right]

theorem report_absorb_mlp (ov : Bool) (kw : PConf) :
    PConf.update kw (mkInit mlpParams none ov dd ds).evalparams =
      PConf.update (PConf.update mlpParams kw)
        (mkInit mlpParams none ov dd ds).evalparams := by
  cases kw
  simp [PConf.update, mkInit, mlpParams, Option.getD, oup_none_left, oup_some,
    oup_none_right]

/-! ### Facts about the regressor dispatch -/

theorem buildRegr_dt {c : Config} (h : c.regressor = "decision_tree") :
    buildRegr c = .ok (.dt c.depth c.criterion c.min_samples_split) := by
  simp [buildRegr, h]

theorem buildRegr_mlp {c : Config} (h : c.regressor = "mlp") :
    buildRegr c = .ok (.mlp c.alpha c.activation c.solver c.learning_rate) := by
  simp [buildRegr, h]

theorem buildRegr_unknown {c : Config} (h1 : c.regressor ≠ "decision_tree")
    (h2 : c.regressor ≠ "mlp") :
    buildRegr c = .error (.valueError "Unknown regressor") := by
  simp [buildRegr, h1, h2]

theorem buildRegr_error_shape {c : Config} {e : PyErr} (h : buildRegr c = .error e) :
    e = .valueError "Unknown regressor" := by
  unfold buildRegr at h
  split at h
  · simp at h
  · split at h
    · simp at h
    · simp only [Except.error.injEq] at h
      exact h.symm

/-- Every evaluation whose regressor dispatch succeeded returns either a
value or the depth assertion failure (and the latter only for a non-`int`
depth); in particular never a `ValueError`. -/
theorem evalML_result_cases {S : Type} (B : Backend S) (st : MLState) {c : Config}
    {spec : RegrSpec} (hspec : buildRegr c = .ok spec) :
    (∃ v, (evalML B st c).2 = .ok v) ∨
    ((evalML B st c).2 = .error (.assertionError "depth") ∧ c.depth.isInt = false) := by
  cases hnf : c.noise_free with
  | true => exact Or.inl ⟨_, by rw [evalML_noise_free B st hspec hnf]⟩
  | false =>
    cases hint : c.depth.isInt with
    | true => exact Or.inl ⟨_, by rw [evalML_cv B st hspec hnf hint]⟩
    | false =>
      cases hfs : folds4 st with
      | nil =>
        refine Or.inl ⟨0 / (st.cross_val_num : ℚ), ?_⟩
        simp [evalML, hspec, hnf, hfs, cvFold, Except.map]
      | cons f rest =>
        refine Or.inr ⟨?_, rfl⟩
        rw [evalML_cv_assert B st hspec hnf hint (by rw [hfs]; simp)]

/-! ### Shared concrete objects for the closed counterexamples -/

/-- Three distinct concrete stand-ins for `np.sin`, `np.cos`, `np.square`. -/
def fSin : ℚ → ℚ := fun _ => 0

def fCos : ℚ → ℚ := fun x => x

def fSquare : ℚ → ℚ := fun x => x * x

/-- A toy external dataset (stand-in for the sklearn diabetes loader):
20 one-column rows with labels 0. -/
def toyX : List Row := (List.range 20).map (fun i : ℕ => [(i : ℚ)])

def toyY : List ℚ := (List.range 20).map (fun _ : ℕ => (0 : ℚ))

/-- A deterministic stand-in for the external
`train_test_split(..., test_size=0.5, random_state=42)`. -/
def toySplit : List Row → List ℚ → List Row × List Row × List ℚ × List ℚ :=
  fun X y => (X.take 10, X.drop 10, y.take 10, y.drop 10)

/-- A regressor backend whose state is the constructor spec and whose
predictions are identically 0. -/
def zeroBackend : Backend RegrSpec :=
  { new := fun s => s, fit := fun s _ _ => s,
    predict := fun _ rows => rows.map (fun _ => 0) }

/-- A regressor backend whose predictions depend on the tree criterion the
instance was constructed with: 0 under `"mse"`, 1 otherwise. -/
def critBackend : Backend RegrSpec :=
  { new := fun s => s, fit := fun s _ _ => s,
    predict := fun s rows => rows.map (fun _ =>
      match s with
      | .dt _ crit _ => if crit = "mse" then 0 else 1
      | .mlp _ _ _ _ => 0) }

/-- A backend whose state counts how many `fit` calls ran on the instance
since construction, and predicts that count. -/
def countBackend : Backend ℕ :=
  { new := fun _ => 0, fit := fun s _ _ => s + 1,
    predict := fun s rows => rows.map (fun _ => (s : ℚ)) }

/-- A backend whose `fit` result is independent of the prior instance state. -/
def constFitBackend : Backend ℕ :=
  { new := fun _ => 0, fit := fun _ _ _ => 7,
    predict := fun s rows => rows.map (fun _ => (s : ℚ)) }

/-- A not-yet-materialized state (only used to instantiate universally
quantified state variables in witnesses). -/
def stEmpty : MLState := ⟨[], [], [], [], [], [], [], [], [], [], 10⟩

/-! ### Claim theorems -/

/-- Claim C8 (confirmed): for every recognized regressor family, construction
fails — with the dimension/dataset assertion, the spec's ConfigurationError —
exactly when `("artificial" in dataset)` disagrees with
`(data_dimension is not None)`; and the failing error is that assertion. -/
theorem construction_dimension_dataset_guard
    (reg : String) (dd : Option ℕ) (ds : String) (ov : Bool)
    (hreg : reg = "decision_tree_depth" ∨ reg = "any" ∨ reg = "decision_tree" ∨
      reg = "mlp") :
    ((initML reg dd ds ov).isOk = true ↔ strHas "artificial" ds = dd.isSome) ∧
    (strHas "artificial" ds ≠ dd.isSome →
      initML reg dd ds ov = .error (.assertionError "dimension mismatch")) := by
  by_cases hg : strHas "artificial" ds = dd.isSome
  · constructor
    · rcases hreg with rfl | rfl | rfl | rfl <;>
        simp [initML, hg, Except.isOk, Except.toBool]
    · intro hc; exact absurd hg hc
  · constructor
    · simp only [initML, if_pos hg]
      simp [Except.isOk, Except.toBool, hg]
    · intro _
      simp only [initML, if_pos hg]

theorem construction_dimension_dataset_guard_witness :
    (("mlp" : String) = "decision_tree_depth" ∨ ("mlp" : String) = "any" ∨
      ("mlp" : String) = "decision_tree" ∨ ("mlp" : String) = "mlp") ∧
    (((initML "mlp" none "diabetes" false).isOk = true ↔
        strHas "artificial" "diabetes" = (none : Option ℕ).isSome) ∧
     (strHas "artificial" "diabetes" ≠ (none : Option ℕ).isSome →
        initML "mlp" none "diabetes" false = .error (.assertionError "dimension mismatch"))) :=
  ⟨by simp,
   construction_dimension_dataset_guard "mlp" none "diabetes" false (by simp)⟩

/-- Claim C10 (confirmed): for a synthetic dataset name and permutation
shuffles, materialization succeeds iff the data dimension divides 60000 (the
test-grid `reshape(-1, d)` guard), and then the test set has exactly
`60000 / d` rows, each of width `d`. -/
theorem synthetic_test_grid_divisibility
    (sinF cosF squareF : ℚ → ℚ) (σr : List Row → List Row) (σs : List ℚ → List ℚ)
    (nd K d : ℕ) (ds : String)
    (hσr : ∀ l, (σr l).Perm l) (hσs : ∀ l, (σs l).Perm l) (hd : 0 < d)
    (hds : ds = "artificial" ∨ ds = "artificialcos" ∨ ds = "artificialsquare") :
    ((∃ st, makeDatasetArtificial sinF cosF squareF σr σs nd K d ds = .ok st) ↔
      d ∣ 60000) ∧
    (∀ st, makeDatasetArtificial sinF cosF squareF σr σs nd K d ds = .ok st →
      st.X_test.length = 60000 / d ∧ ∀ r ∈ st.X_test, r.length = d) := by
  have hlen60 : (σs (grid 60000)).length = 60000 := by
    rw [(hσs (grid 60000)).length_eq, grid_length]
  constructor
  · constructor
    · rintro ⟨st, hst⟩
      obtain ⟨tf, fs, Xte, htf, hfs, hXte, hrec⟩ := mkArt_ok hst
      obtain ⟨-, -, hdvd⟩ := reshapeCols_ok hXte
      rwa [hlen60] at hdvd
    · intro hdvd
      have hrows : ∀ r ∈ σr (chunks d (grid (nd * d))), r.length = d := by
        intro r hr
        exact chunks_mem_length hd
          (by rw [grid_length]; exact dvd_mul_left d nd)
          r ((hσr _).mem_iff.mp hr)
      have htf : ∃ tf, targetFn sinF cosF squareF ds = .ok tf := by
        rcases hds with rfl | rfl | rfl
        · exact ⟨sinF, rfl⟩
        · exact ⟨cosF, rfl⟩
        · exact ⟨squareF, rfl⟩
      obtain ⟨tf, htf⟩ := htf
      have hfolds : ∀ cv : ℕ, synthFold tf (σr (chunks d (grid (nd * d)))) nd K d cv =
          .ok ⟨maskSel nd K cv false (σr (chunks d (grid (nd * d)))),
               rowLabels tf (maskSel nd K cv false (σr (chunks d (grid (nd * d))))),
               maskSel nd K cv true (σr (chunks d (grid (nd * d)))),
               rowLabels tf (maskSel nd K cv true (σr (chunks d (grid (nd * d)))))⟩ :=
        fun cv => synthFold_succeeds hd tf hrows nd K cv
      obtain ⟨fs, hfs⟩ : ∃ fs, exceptMapList
          (synthFold tf (σr (chunks d (grid (nd * d)))) nd K d) (List.range K) = .ok fs :=
        exceptMapList_ok_of_forall (fun cv => ⟨_, hfolds cv⟩) _
      have hXte : reshapeCols d (σs (grid 60000)) = .ok (chunks d (σs (grid 60000))) := by
        unfold reshapeCols
        rw [if_pos ⟨hd, by rw [hlen60]; exact hdvd⟩]
      exact ⟨_, by
        unfold makeDatasetArtificial
        rw [reshape_grid_ok hd nd]
        simp only
        rw [htf]
        simp only
        rw [hfs]
        simp only
        rw [hXte]⟩
  · intro st hst
    obtain ⟨tf, fs, Xte, htf, hfs, hXte, hrec⟩ := mkArt_ok hst
    obtain ⟨hXteq, -, hdvd⟩ := reshapeCols_ok hXte
    constructor
    · rw [hrec]
      show Xte.length = 60000 / d
      rw [hXteq, chunks_length hd hdvd, hlen60]
    · rw [hrec]
      intro r hr
      exact chunks_mem_length hd hdvd r (by rwa [hXteq] at hr)

theorem synthetic_test_grid_divisibility_witness :
    ((∀ l : List Row, (id l).Perm l) ∧ (∀ l : List ℚ, (id l).Perm l) ∧ 0 < 6 ∧
      (("artificialsquare" : String) = "artificial" ∨
       ("artificialsquare" : String) = "artificialcos" ∨
       ("artificialsquare" : String) = "artificialsquare")) ∧
    (((∃ st, makeDatasetArtificial fSin fCos fSquare id id 120 10 6 "artificialsquare"
        = .ok st) ↔ 6 ∣ 60000) ∧
     (∀ st, makeDatasetArtificial fSin fCos fSquare id id 120 10 6 "artificialsquare"
        = .ok st → st.X_test.length = 60000 / 6 ∧ ∀ r ∈ st.X_test, r.length = 6)) :=
  ⟨⟨fun l => List.Perm.refl l, fun l => List.Perm.refl l, by decide,
     Or.inr (Or.inr rfl)⟩,
   synthetic_test_grid_divisibility fSin fCos fSquare id id 120 10 6 "artificialsquare"
     (fun l => List.Perm.refl l) (fun l => List.Perm.refl l) (by decide)
     (Or.inr (Or.inr rfl))⟩

/-- Claim C1 (confirmed): for a materialized synthetic dataset the full
training-set labels `self.y` / `self.y_train` are the per-row sums of `sinF`
applied to the rows — whatever the dataset name selected — while the per-fold
training labels, per-fold validation labels and test labels are computed with
the dataset-selected target function `tf`. -/
theorem synthetic_train_labels_always_sin
    (sinF cosF squareF : ℚ → ℚ) (σr : List Row → List Row) (σs : List ℚ → List ℚ)
    (nd K d : ℕ) (ds : String) (tf : ℚ → ℚ)
    (htf : targetFn sinF cosF squareF ds = .ok tf) :
    ∀ st, makeDatasetArtificial sinF cosF squareF σr σs nd K d ds = .ok st →
      st.y = rowLabels sinF st.X ∧
      st.y_train = rowLabels sinF st.X_train ∧
      st.y_train_cv = st.X_train_cv.map (rowLabels tf) ∧
      st.y_valid_cv = st.X_valid_cv.map (rowLabels tf) ∧
      st.y_test = rowLabels tf st.X_test := by
  intro st hst
  obtain ⟨tf2, fs, Xte, htf2, hfs, hXte, hrec⟩ := mkArt_ok hst
  have htfeq : tf2 = tf := by
    rw [htf] at htf2
    exact (Except.ok.injEq _ _ ▸ htf2).symm
  subst htfeq
  have hfoldprop : ∀ f ∈ fs, f.yt = rowLabels tf2 f.Xt ∧ f.yv = rowLabels tf2 f.Xv :=
    exceptMapList_mem (fun cv fold hok =>
      ⟨(synthFold_ok hok).2.1, (synthFold_ok hok).2.2.2⟩) hfs
  subst hrec
  refine ⟨rfl, rfl, ?_, ?_, rfl⟩
  · rw [List.map_map]
    exact List.map_congr_left (fun f hf => (hfoldprop f hf).1)
  · rw [List.map_map]
    exact List.map_congr_left (fun f hf => (hfoldprop f hf).2)

theorem synthetic_train_labels_always_sin_witness :
    (targetFn fSin fCos fSquare "artificialcos" = .ok fCos) ∧
    (∀ st, makeDatasetArtificial fSin fCos fSquare id id 120 10 1 "artificialcos" = .ok st →
      st.y = rowLabels fSin st.X ∧
      st.y_train = rowLabels fSin st.X_train ∧
      st.y_train_cv = st.X_train_cv.map (rowLabels fCos) ∧
      st.y_valid_cv = st.X_valid_cv.map (rowLabels fCos) ∧
      st.y_test = rowLabels fCos st.X_test) :=
  ⟨rfl, synthetic_train_labels_always_sin fSin fCos fSquare id id 120 10 1
    "artificialcos" fCos rfl⟩

/-- A fully-bound decision-tree configuration with an integer depth, used to
instantiate evaluation theorems. -/
def cfgDT : Config :=
  ⟨.int 3, "mse", (1 : ℚ)/100000, "no", "no", 1, "no", "decision_tree", false⟩

/-- The spec `buildRegr` produces for `cfgDT`. -/
def specDT : RegrSpec := .dt (.int 3) "mse" ((1 : ℚ)/100000)

/-- Claim C3 (confirmed): with a recognized family, an integer depth and
`noise_free = false`, evaluation on a materialized state of either dataset
kind returns exactly the sum of the 10 individual per-fold MSE values divided
by 10 — their arithmetic mean — and `_cross_val_num` is pinned to 10 at
construction for every family and dataset kind. -/
theorem cv_eval_is_mean_of_ten_fold_mses {S : Type} (B : Backend S)
    (c : Config) (spec : RegrSpec)
    (sinF cosF squareF : ℚ → ℚ) (σr : List Row → List Row) (σs : List ℚ → List ℚ)
    (nd d : ℕ) (ds : String)
    (loadData : List Row × List ℚ) (colS : List Row → List Row)
    (tts : List Row → List ℚ → List Row × List Row × List ℚ × List ℚ)
    (ddR : Option ℕ) (dsR : String)
    (reg : String) (dd2 : Option ℕ) (ds2 : String) (ov : Bool)
    (hspec : buildRegr c = .ok spec) (hnf : c.noise_free = false)
    (hint : c.depth.isInt = true) :
    (∀ I, initML reg dd2 ds2 ov = .ok I → I.cross_val_num = 10) ∧
    (∀ st, makeDatasetArtificial sinF cosF squareF σr σs nd 10 d ds = .ok st →
      (evalML B st c).2 = .ok ((foldMSEList B (B.new spec) (folds4 st)).sum / 10) ∧
      (foldMSEList B (B.new spec) (folds4 st)).length = 10) ∧
    (∀ st, makeDatasetReal loadData colS tts 10 ddR dsR = .ok st →
      (evalML B st c).2 = .ok ((foldMSEList B (B.new spec) (folds4 st)).sum / 10) ∧
      (foldMSEList B (B.new spec) (folds4 st)).length = 10) := by
  refine ⟨?_, ?_, ?_⟩
  · intro I hI
    exact (initML_ok hI).2.1
  · intro st hst
    obtain ⟨tf, fs, Xte, htf, hfs, hXte, hrec⟩ := mkArt_ok hst
    have hcvn : st.cross_val_num = 10 := by rw [hrec]
    have hfolds : folds4 st = fs := by
      rw [hrec]
      exact zip4_maps fs
    have hlen : fs.length = 10 := by
      rw [exceptMapList_length hfs, List.length_range]
    rw [evalML_cv B st hspec hnf hint, hcvn]
    constructor
    · norm_num
    · rw [foldMSEList_length, hfolds, hlen]
  · intro st hst
    obtain ⟨hds, hdd, hK, hrec⟩ := mkReal_ok hst
    have hcvn : st.cross_val_num = 10 := by rw [hrec]; rfl
    have hfolds : folds4 st =
        realFolds (tts (colS loadData.1) loadData.2).1
          (tts (colS loadData.1) loadData.2).2.2.1 10 := by
      rw [hrec]
      exact zip4_maps _
    have hlen : (realFolds (tts (colS loadData.1) loadData.2).1
        (tts (colS loadData.1) loadData.2).2.2.1 10).length = 10 := by
      simp [realFolds]
    rw [evalML_cv B st hspec hnf hint, hcvn]
    constructor
    · norm_num
    · rw [foldMSEList_length, hfolds, hlen]

theorem cv_eval_is_mean_of_ten_fold_mses_witness :
    (buildRegr cfgDT = .ok specDT ∧ cfgDT.noise_free = false ∧
      cfgDT.depth.isInt = true) ∧
    ((∀ I, initML "mlp" none "diabetes" false = .ok I → I.cross_val_num = 10) ∧
     (∀ st, makeDatasetArtificial fSin fCos fSquare id id 120 10 1 "artificial" = .ok st →
       (evalML zeroBackend st cfgDT).2 =
         .ok ((foldMSEList zeroBackend (zeroBackend.new specDT) (folds4 st)).sum / 10) ∧
       (foldMSEList zeroBackend (zeroBackend.new specDT) (folds4 st)).length = 10) ∧
     (∀ st, makeDatasetReal (toyX, toyY) id toySplit 10 none "diabetes" = .ok st →
       (evalML zeroBackend st cfgDT).2 =
         .ok ((foldMSEList zeroBackend (zeroBackend.new specDT) (folds4 st)).sum / 10) ∧
       (foldMSEList zeroBackend (zeroBackend.new specDT) (folds4 st)).length = 10)) :=
  ⟨⟨rfl, rfl, rfl⟩,
   cv_eval_is_mean_of_ten_fold_mses zeroBackend cfgDT specDT fSin fCos fSquare id id
     120 1 "artificial" (toyX, toyY) id toySplit none "diabetes"
     "mlp" none "diabetes" false rfl rfl rfl⟩

/-- Claim C5 (confirmed): on both dataset paths every fold's training and
validation parts are selected by disjoint index sets and together are a
permutation of the fold's training pool; on the synthetic path fold `cv`'s
validation rows are exactly the rows of the (shuffled) synthetic array whose
index is ≡ cv (mod 10), and its training rows are all the other rows. -/
theorem fold_partition_and_modk_membership
    (sinF cosF squareF : ℚ → ℚ) (σr : List Row → List Row) (σs : List ℚ → List ℚ)
    (nd d : ℕ) (ds : String)
    (loadData : List Row × List ℚ) (colS : List Row → List Row)
    (tts : List Row → List ℚ → List Row × List Row × List ℚ × List ℚ)
    (ddR : Option ℕ) (dsR : String)
    (hσr : ∀ l, (σr l).Perm l) (hd : 0 < d) :
    (∀ st, makeDatasetArtificial sinF cosF squareF σr σs nd 10 d ds = .ok st →
      ∀ cv, cv < 10 →
        st.X_valid_cv.get? cv = some (maskSel nd 10 cv true st.X) ∧
        st.X_train_cv.get? cv = some (maskSel nd 10 cv false st.X) ∧
        (∀ i, i ∈ maskIdx nd 10 cv true → i ∉ maskIdx nd 10 cv false) ∧
        (maskSel nd 10 cv false st.X ++ maskSel nd 10 cv true st.X).Perm st.X_train) ∧
    (∀ st, makeDatasetReal loadData colS tts 10 ddR dsR = .ok st →
      ∀ i, i < 10 →
        st.X_train_cv.get? i =
          some (selectIdx st.X_train (kfoldTrainIdx st.X_train.length 10 i)) ∧
        st.X_valid_cv.get? i =
          some (selectIdx st.X_train (kfoldValidIdx st.X_train.length 10 i)) ∧
        (∀ j, j ∈ kfoldValidIdx st.X_train.length 10 i →
          j ∉ kfoldTrainIdx st.X_train.length 10 i) ∧
        (selectIdx st.X_train (kfoldTrainIdx st.X_train.length 10 i) ++
          selectIdx st.X_train (kfoldValidIdx st.X_train.length 10 i)).Perm
          st.X_train) := by
  constructor
  · intro st hst cv hcv
    obtain ⟨tf, fs, Xte, htf, hfs, hXte, hrec⟩ := mkArt_ok hst
    have hrows : ∀ r ∈ σr (chunks d (grid (nd * d))), r.length = d := by
      intro r hr
      exact chunks_mem_length hd
        (by rw [grid_length]; exact dvd_mul_left d nd)
        r ((hσr _).mem_iff.mp hr)
    have hXlen : (σr (chunks d (grid (nd * d)))).length = nd := by
      rw [(hσr _).length_eq,
        chunks_length hd (by rw [grid_length]; exact dvd_mul_left d nd),
        grid_length, Nat.mul_div_cancel _ hd]
    obtain ⟨a, fold, hgr, hgf, hok⟩ :=
      exceptMapList_get hfs cv (by simpa using hcv)
    have ha : a = cv := by
      rw [List.get?_range hcv] at hgr
      exact (Option.some.injEq _ _ ▸ hgr).symm
    subst ha
    have hfold : fold =
        ⟨maskSel nd 10 a false (σr (chunks d (grid (nd * d)))),
         rowLabels tf (maskSel nd 10 a false (σr (chunks d (grid (nd * d))))),
         maskSel nd 10 a true (σr (chunks d (grid (nd * d)))),
         rowLabels tf (maskSel nd 10 a true (σr (chunks d (grid (nd * d)))))⟩ := by
      rw [synthFold_succeeds hd tf hrows nd 10 a] at hok
      exact (Except.ok.injEq _ _ ▸ hok).symm
    subst hrec
    refine ⟨?_, ?_, fun i hi => maskIdx_disjoint hi, ?_⟩
    · show (fs.map Fold.Xv).get? a = _
      rw [List.get?_map, hgf, hfold]
      rfl
    · show (fs.map Fold.Xt).get? a = _
      rw [List.get?_map, hgf, hfold]
      rfl
    · exact maskSel_append_perm nd 10 a _ hXlen
  · intro st hst i hi
    obtain ⟨hds, hdd, hK, hrec⟩ := mkReal_ok hst
    subst hrec
    refine ⟨?_, ?_, fun j hj => kfold_disjoint hj, ?_⟩
    · show ((realFolds _ _ 10).map Fold.Xt).get? i = _
      rw [List.get?_map]
      unfold realFolds
      rw [List.get?_map, List.get?_range hi]
      rfl
    · show ((realFolds _ _ 10).map Fold.Xv).get? i = _
      rw [List.get?_map]
      unfold realFolds
      rw [List.get?_map, List.get?_range hi]
      rfl
    · exact kfold_rows_perm _ 10 i

theorem fold_partition_and_modk_membership_witness :
    ((∀ l : List Row, (id l).Perm l) ∧ 0 < 1) ∧
    ((∀ st, makeDatasetArtificial fSin fCos fSquare id id 120 10 1 "artificial" = .ok st →
      ∀ cv, cv < 10 →
        st.X_valid_cv.get? cv = some (maskSel 120 10 cv true st.X) ∧
        st.X_train_cv.get? cv = some (maskSel 120 10 cv false st.X) ∧
        (∀ i, i ∈ maskIdx 120 10 cv true → i ∉ maskIdx 120 10 cv false) ∧
        (maskSel 120 10 cv false st.X ++ maskSel 120 10 cv true st.X).Perm st.X_train) ∧
     (∀ st, makeDatasetReal (toyX, toyY) id toySplit 10 none "diabetes" = .ok st →
      ∀ i, i < 10 →
        st.X_train_cv.get? i =
          some (selectIdx st.X_train (kfoldTrainIdx st.X_train.length 10 i)) ∧
        st.X_valid_cv.get? i =
          some (selectIdx st.X_train (kfoldValidIdx st.X_train.length 10 i)) ∧
        (∀ j, j ∈ kfoldValidIdx st.X_train.length 10 i →
          j ∉ kfoldTrainIdx st.X_train.length 10 i) ∧
        (selectIdx st.X_train (kfoldTrainIdx st.X_train.length 10 i) ++
          selectIdx st.X_train (kfoldValidIdx st.X_train.length 10 i)).Perm
          st.X_train)) :=
  ⟨⟨fun l => List.Perm.refl l, by decide⟩,
   fold_partition_and_modk_membership fSin fCos fSquare id id 120 1 "artificial"
     (toyX, toyY) id toySplit none "diabetes" (fun l => List.Perm.refl l) (by decide)⟩

/-! ### Further helpers for the remaining claims -/

theorem toConfig_some {p : PConf} {c : Config} (h : p.toConfig = some c) :
    p.depth = some c.depth ∧ p.criterion = some c.criterion ∧
    p.min_samples_split = some c.min_samples_split ∧ p.solver = some c.solver ∧
    p.activation = some c.activation ∧ p.alpha = some c.alpha ∧
    p.learning_rate = some c.learning_rate ∧ p.regressor = some c.regressor ∧
    p.noise_free = some c.noise_free := by
  simp only [PConf.toConfig, Option.bind_eq_some, Option.map_eq_some'] at h
  obtain ⟨d1, hd1, c1, hc1, m1, hm1, s1, hs1, a1, ha1, al1, hal1, l1, hl1, r1, hr1,
    n1, hn1, hc⟩ := h
  subst hc
  exact ⟨hd1, hc1, hm1, hs1, ha1, hal1, hl1, hr1, hn1⟩

theorem countNew_cons_new (spec : RegrSpec) (tr : List Event) :
    countNew (.newEv spec :: tr) = countNew tr + 1 := by
  simp [countNew, List.filter_cons]

theorem countFit_cons_new (spec : RegrSpec) (tr : List Event) :
    countFit (.newEv spec :: tr) = countFit tr := by
  simp [countFit, List.filter_cons]

/-- When the backend's `fit` ignores the prior instance state, re-fitting one
threaded instance produces the same per-fold errors as a fresh instance per
fold. -/
theorem foldMSEList_stateless {S : Type} (B : Backend S) (spec : RegrSpec)
    (hB : ∀ s t X y, B.fit s X y = B.fit t X y) :
    ∀ (s : S) (fs : List Fold), foldMSEList B s fs = freshFoldMSEs B spec fs := by
  intro s fs
  induction fs generalizing s with
  | nil => rfl
  | cons f rest ih =>
    simp only [foldMSEList, freshFoldMSEs]
    rw [hB s (B.new spec) f.Xt f.yt]
    rw [ih]

/-- The `noise_free=True` decision-tree configuration of the report call of a
non-overfitter `decision_tree` benchmark. -/
def cfgNFdt : Config :=
  ⟨.int 3, "mse", (1 : ℚ)/100000, "no", "no", 1, "no", "decision_tree", true⟩

/-- A held-out-mode configuration with a non-integer depth. -/
def cfgBadDepthNF : Config :=
  ⟨.float ((11 : ℚ)/2), "mse", (1 : ℚ)/100000, "no", "no", 1, "no", "decision_tree", true⟩

/-- A cross-validation-mode `mlp` configuration with a non-integer depth,
even though `depth` is irrelevant to the `mlp` family. -/
def cfgMlpBadDepth : Config :=
  ⟨.float ((1 : ℚ)/2), "no", (1 : ℚ)/10, "adam", "relu", 1, "constant", "mlp", false⟩

/-- Caller kwargs for the `decision_tree` search space: a depth, a criterion
and a split threshold, plus the pinned family tag. -/
def kwDT : PConf :=
  { depth := some (.int 3), criterion := some "mae",
    min_samples_split := some ((1 : ℚ)/2), regressor := some "decision_tree" }

/-- The objective-time effective configuration of `kwDT` for the
`decision_tree` family (already `noise_free = false`). -/
def cfgSameDT : Config :=
  ⟨.int 3, "mae", (1 : ℚ)/2, "no", "no", 1, "no", "decision_tree", false⟩

/-- The construction result for
`MLTuning(regressor="decision_tree", dataset="diabetes", overfitter=True)`. -/
def IdtOverfit : InitData := mkInit dtParams (some dtEvalParams) true none "diabetes"

/-- Claim C2 (code bug): in `noise_free` mode the regressor is fitted on
`self.X` and `self.y` — for a real-world dataset the whole loaded dataset
including the 50% test half; the locals `X = self.X_train`, `y = self.y_train`
in the source are assigned but never used.  On a 20-row real-world state the
single fit call receives all 20 rows while the training pool `self.X_train`
holds only the first 10 and the test set the other 10. -/
theorem noise_free_fit_uses_full_dataset :
    (makeDatasetReal (toyX, toyY) id toySplit 10 none "diabetes").map
        (fun st => ((evalML zeroBackend st cfgNFdt).1, st.X_train, st.X_test))
      = .ok ([.newEv specDT, .fitEv toyX toyY, .predictEv (toyX.drop 10)],
             toyX.take 10, toyX.drop 10) ∧
    toyX ≠ toyX.take 10 := by
  constructor
  · with_unfolding_all rfl
  · intro h
    have h2 := congrArg List.length h
    have h3 : toyX.length = 20 := by simp [toyX]
    rw [List.length_take, h3] at h2
    omega

/-- Claim C4 (counterexample): with `overfitter=true` and the
`decision_tree` family, the report call is NOT numerically equal to the
cross-validated evaluation of the same configuration: `evalparams` override
the caller's `criterion="mae"` with `"mse"`, and under a backend whose
predictions depend on the criterion the report call returns 0 while the
cross-validated evaluation of the caller's effective configuration returns 1. -/
theorem report_not_same_config_decision_tree :
    initML "decision_tree" none "diabetes" true = .ok IdtOverfit ∧
    (PConf.update dtParams kwDT).toConfig = some cfgSameDT ∧
    (makeDatasetReal (toyX, toyY) id toySplit 10 none "diabetes").map
        (fun st => ((reportCall IdtOverfit critBackend st kwDT).map (fun p => p.2),
                    (evalML critBackend st cfgSameDT).2))
      = .ok (some (.ok 0), .ok 1) ∧
    (Except.ok (0 : ℚ) : Except PyErr ℚ) ≠ .ok 1 := by
  refine ⟨by with_unfolding_all rfl, by with_unfolding_all rfl,
    by with_unfolding_all rfl, ?_⟩
  simp only [ne_eq, Except.ok.injEq]
  norm_num

/-- The amended semantics of `evaluation_function` (the report call). -/
def ReportSemantics {S : Type} (B : Backend S) (st : MLState) (reg : String)
    (ov : Bool) (I : InitData) (kw : PConf) : Prop :=
  reportCall I B st kw =
    (PConf.update (PConf.update I.params kw) I.evalparams).toConfig.map
      (fun c => evalML B st c) ∧
  (∀ c, (PConf.update kw I.evalparams).toConfig = some c → c.noise_free = !ov) ∧
  (reg ≠ "decision_tree" → I.evalparams = { I.params with noise_free := some (!ov) }) ∧
  (reg = "decision_tree" →
    I.evalparams =
      { dtParams with
        criterion := some "mse",
        min_samples_split := some ((1 : ℚ)/100000),
        noise_free := some (!ov) }) ∧
  (∀ c spec, c.noise_free = true → buildRegr c = .ok spec →
    evalML B st c =
      ([.newEv spec, .fitEv st.X st.y, .predictEv st.X_test],
       .ok (mse st.y_test (B.predict (B.fit (B.new spec) st.X st.y) st.X_test))))

/-- Claim C4 (amended, corrected): the report call evaluates the caller's
kwargs merged over the optimization-time `params` and then overridden by the
construction-time `evalparams`, whose `noise_free` is `not overfitter`; for
families other than `decision_tree` the `evalparams` pin nothing beyond
`params` and `noise_free` (so with `overfitter=true` the report call is the
cross-validated evaluation of the same effective configuration), while the
`decision_tree` family additionally pins `criterion="mse"` and
`min_samples_split=1e-5`; with `overfitter=false` the forced
`noise_free=true` evaluation fits one regressor on `(self.X, self.y)` and
returns the MSE of its predictions on the test set. -/
theorem report_call_semantics {S : Type} (B : Backend S) (st : MLState)
    (reg : String) (dd : Option ℕ) (ds : String) (ov : Bool) (I : InitData)
    (kw : PConf) (hI : initML reg dd ds ov = .ok I) :
    ReportSemantics B st reg ov I kw := by
  obtain ⟨hdim, hcv, hnum, hov, hdd, hds, hcases⟩ := initML_ok hI
  have hevnf : I.evalparams.noise_free = some (!ov) := by
    rcases hcases with ⟨_, rfl⟩ | ⟨_, rfl⟩ | ⟨_, rfl⟩ | ⟨_, rfl⟩ <;> rfl
  unfold ReportSemantics
  refine ⟨?_, ?_, ?_, ?_, ?_⟩
  · unfold reportCall
    rcases hcases with ⟨hr, rfl⟩ | ⟨hr, rfl⟩ | ⟨hr, rfl⟩ | ⟨hr, rfl⟩
    · exact congrArg (fun p => Option.map (fun c => evalML B st c) p.toConfig)
        (report_absorb_dtDepth ov kw)
    · exact congrArg (fun p => Option.map (fun c => evalML B st c) p.toConfig)
        (report_absorb_any ov kw)
    · exact congrArg (fun p => Option.map (fun c => evalML B st c) p.toConfig)
        (report_absorb_dt ov kw)
    · exact congrArg (fun p => Option.map (fun c => evalML B st c) p.toConfig)
        (report_absorb_mlp ov kw)
  · intro c hc
    have h9 := (toConfig_some hc).2.2.2.2.2.2.2.2
    have hupd : (PConf.update kw I.evalparams).noise_free = some (!ov) := by
      show oup kw.noise_free I.evalparams.noise_free = some (!ov)
      rw [hevnf]
      rfl
    rw [hupd] at h9
    exact (Option.some.inj h9).symm
  · intro hne
    rcases hcases with ⟨hr, rfl⟩ | ⟨hr, rfl⟩ | ⟨hr, rfl⟩ | ⟨hr, rfl⟩
    · rfl
    · rfl
    · exact absurd hr hne
    · rfl
  · intro hdt
    rcases hcases with ⟨hr, rfl⟩ | ⟨hr, rfl⟩ | ⟨hr, rfl⟩ | ⟨hr, rfl⟩
    · rw [hr] at hdt; exact absurd hdt (by decide)
    · rw [hr] at hdt; exact absurd hdt (by decide)
    · rfl
    · rw [hr] at hdt; exact absurd hdt (by decide)
  · intro c spec hnf hspec
    exact evalML_noise_free B st hspec hnf

theorem report_call_semantics_witness :
    initML "any" (some 2) "artificial" true
      = .ok (mkInit anyParams none true (some 2) "artificial") ∧
    ReportSemantics zeroBackend stEmpty "any" true
      (mkInit anyParams none true (some 2) "artificial") kwDT :=
  ⟨by with_unfolding_all rfl,
   report_call_semantics zeroBackend stEmpty "any" (some 2) "artificial" true
     (mkInit anyParams none true (some 2) "artificial") kwDT
     (by with_unfolding_all rfl)⟩

/-- Claim C6 (counterexample): in cross-validated mode a single regressor
instance is constructed — the trace holds one construction for 10 folds, not
one per fold — and under a backend whose `fit` depends on the prior instance
state the result (77/2, from fold errors 1,4,…,100) differs from the
fresh-instance-per-fold protocol (which gives 1), so state does carry over. -/
theorem single_regressor_reused_across_folds :
    (makeDatasetReal (toyX, toyY) id toySplit 10 none "diabetes").map
        (fun st => (countNew (evalML countBackend st cfgDT).1,
                    (folds4 st).length,
                    (evalML countBackend st cfgDT).2,
                    (freshFoldMSEs countBackend specDT (folds4 st)).sum /
                      (st.cross_val_num : ℚ)))
      = .ok (1, 10, .ok ((77 : ℚ)/2), 1) ∧
    (1 : ℕ) ≠ 10 ∧
    (Except.ok ((77 : ℚ)/2) : Except PyErr ℚ) ≠ .ok 1 := by
  refine ⟨by with_unfolding_all rfl, by decide, ?_⟩
  simp only [ne_eq, Except.ok.injEq]
  norm_num

/-- Claim C6 (amended, corrected): one regressor instance is constructed per
cross-validated evaluation call, before the fold loop, and is re-fitted on
each of the folds (one fit call per fold on the same threaded instance); when
the backend's `fit` discards the prior instance state — as sklearn's `fit`
does — the returned value nevertheless coincides with the
fresh-instance-per-fold protocol. -/
theorem one_instance_per_eval_refit_per_fold {S : Type} (B : Backend S)
    (st : MLState) (c : Config) (spec : RegrSpec) (hspec : buildRegr c = .ok spec)
    (hnf : c.noise_free = false) (hint : c.depth.isInt = true) :
    countNew (evalML B st c).1 = 1 ∧
    countFit (evalML B st c).1 = (folds4 st).length ∧
    ((∀ s t X y, B.fit s X y = B.fit t X y) →
      (evalML B st c).2 =
        .ok ((freshFoldMSEs B spec (folds4 st)).sum / (st.cross_val_num : ℚ))) := by
  rw [evalML_cv B st hspec hnf hint]
  refine ⟨?_, ?_, ?_⟩
  · show countNew (.newEv spec :: cvTrace (folds4 st)) = 1
    rw [countNew_cons_new, cvTrace_countNew]
  · show countFit (.newEv spec :: cvTrace (folds4 st)) = (folds4 st).length
    rw [countFit_cons_new, cvTrace_countFit]
  · intro hB
    show Except.ok ((foldMSEList B (B.new spec) (folds4 st)).sum / _) = _
    rw [foldMSEList_stateless B spec hB]

theorem one_instance_per_eval_refit_per_fold_witness :
    (buildRegr cfgDT = .ok specDT ∧ cfgDT.noise_free = false ∧
      cfgDT.depth.isInt = true) ∧
    (countNew (evalML constFitBackend stEmpty cfgDT).1 = 1 ∧
     countFit (evalML constFitBackend stEmpty cfgDT).1 = (folds4 stEmpty).length ∧
     ((∀ s t X y, constFitBackend.fit s X y = constFitBackend.fit t X y) →
       (evalML constFitBackend stEmpty cfgDT).2 =
         .ok ((freshFoldMSEs constFitBackend specDT (folds4 stEmpty)).sum /
           (stEmpty.cross_val_num : ℚ)))) :=
  ⟨⟨rfl, rfl, rfl⟩,
   one_instance_per_eval_refit_per_fold constFitBackend stEmpty cfgDT specDT
     rfl rfl rfl⟩

/-- Claim C7 (counterexample): an evaluation call with the non-integer depth
11/2 in held-out mode (`noise_free=True`) does not fail at all: the regressor
is constructed with the fractional depth inside its spec, fitted, and the
call returns a value — the depth reaches the model layer with no type
violation. -/
theorem nonint_depth_no_failure_noise_free :
    (PyNum.float ((11 : ℚ)/2)).isInt = false ∧
    (makeDatasetReal (toyX, toyY) id toySplit 10 none "diabetes").map
        (fun st => evalML zeroBackend st cfgBadDepthNF)
      = .ok ([.newEv (.dt (.float ((11 : ℚ)/2)) "mse" ((1 : ℚ)/100000)),
              .fitEv toyX toyY, .predictEv (toyX.drop 10)], .ok 0) :=
  ⟨rfl, by with_unfolding_all rfl⟩

/-- The amended depth-check semantics. -/
def DepthCheckSemantics {S : Type} (B : Backend S) (st : MLState) (c : Config) :
    Prop :=
  (c.regressor = "decision_tree" → c.noise_free = true →
    evalML B st c =
      ([.newEv (.dt c.depth c.criterion c.min_samples_split), .fitEv st.X st.y,
        .predictEv st.X_test],
       .ok (mse st.y_test (B.predict
         (B.fit (B.new (.dt c.depth c.criterion c.min_samples_split)) st.X st.y)
         st.X_test)))) ∧
  (∀ spec, buildRegr c = .ok spec → c.noise_free = false → c.depth.isInt = false →
    folds4 st ≠ [] →
    evalML B st c = ([.newEv spec], .error (.assertionError "depth"))) ∧
  (c.depth.isInt = true →
    ∀ msg, (evalML B st c).2 ≠ .error (.assertionError msg))

/-- Claim C7 (amended, corrected): the regressor is always constructed with
the given depth before any check — in held-out mode a non-integer depth is
never checked and reaches construction and fit; in cross-validated mode the
`assert isinstance(depth, int)` fires inside the fold loop, after the
regressor was constructed with that depth but before any fit; with an
integer depth the assertion never fires. -/
theorem depth_check_after_construction_cv_only {S : Type} (B : Backend S)
    (st : MLState) (c : Config) : DepthCheckSemantics B st c := by
  unfold DepthCheckSemantics
  refine ⟨?_, ?_, ?_⟩
  · intro hreg hnf
    exact evalML_noise_free B st (buildRegr_dt hreg) hnf
  · intro spec hspec hnf hint hne
    exact evalML_cv_assert B st hspec hnf hint hne
  · intro hint msg
    cases hbr : buildRegr c with
    | error e =>
      have he := buildRegr_error_shape hbr
      subst he
      rw [evalML_valueErr B st hbr]
      simp
    | ok spec =>
      rcases evalML_result_cases B st hbr with ⟨v, hv⟩ | ⟨ha, hfalse⟩
      · rw [hv]; simp
      · rw [hint] at hfalse; simp at hfalse

theorem depth_check_after_construction_cv_only_witness :
    DepthCheckSemantics zeroBackend stEmpty cfgDT :=
  depth_check_after_construction_cv_only zeroBackend stEmpty cfgDT

/-- Claim C9 (counterexample): an evaluation with the recognized family
`"mlp"` and the irrelevant-but-present non-integer `depth = 1/2` fails in
cross-validated mode with the depth assertion — an irrelevant field causing a
failure on its own. -/
theorem irrelevant_depth_field_can_fail :
    cfgMlpBadDepth.regressor = "mlp" ∧
    (PyNum.float ((1 : ℚ)/2)).isInt = false ∧
    (makeDatasetReal (toyX, toyY) id toySplit 10 none "diabetes").map
        (fun st => (evalML zeroBackend st cfgMlpBadDepth).2)
      = .ok (.error (.assertionError "depth")) :=
  ⟨rfl, rfl, by with_unfolding_all rfl⟩

/-- The amended error-dispatch semantics. -/
def ValueErrSemantics {S : Type} (B : Backend S) (st : MLState) (c : Config) :
    Prop :=
  ((∃ msg, (evalML B st c).2 = .error (.valueError msg)) ↔
    ¬(c.regressor = "decision_tree" ∨ c.regressor = "mlp")) ∧
  (c.regressor = "mlp" →
    ∀ d2 cr2 m2,
      buildRegr
        { c with
          depth := d2,
          criterion := cr2,
          min_samples_split := m2 } = buildRegr c) ∧
  (c.regressor = "decision_tree" →
    ∀ a2 ac2 so2 lr2,
      buildRegr
        { c with
          alpha := a2,
          activation := ac2,
          solver := so2,
          learning_rate := lr2 } = buildRegr c) ∧
  (c.regressor = "mlp" → c.noise_free = false → c.depth.isInt = false →
    folds4 st ≠ [] → (evalML B st c).2 = .error (.assertionError "depth"))

/-- Claim C9 (amended, corrected): an evaluation call raises the
`ValueError` (the spec's ConfigurationError) iff the family string is
neither `"decision_tree"` nor `"mlp"`; the fields irrelevant to the chosen
family are ignored by regressor construction; but a non-integer `depth` —
irrelevant to the `mlp` family — still raises the assertion failure in
cross-validated mode. -/
theorem valueerror_iff_unknown_family {S : Type} (B : Backend S) (st : MLState)
    (c : Config) : ValueErrSemantics B st c := by
  unfold ValueErrSemantics
  refine ⟨⟨?_, ?_⟩, ?_, ?_, ?_⟩
  · rintro ⟨msg, hmsg⟩ hreg
    have hok : ∃ spec, buildRegr c = .ok spec := by
      rcases hreg with h | h
      · exact ⟨_, buildRegr_dt h⟩
      · exact ⟨_, buildRegr_mlp h⟩
    obtain ⟨spec, hspec⟩ := hok
    rcases evalML_result_cases B st hspec with ⟨v, hv⟩ | ⟨ha, -⟩
    · rw [hv] at hmsg; simp at hmsg
    · rw [ha] at hmsg; simp at hmsg
  · intro hnreg
    have h1 : c.regressor ≠ "decision_tree" := fun h => hnreg (Or.inl h)
    have h2 : c.regressor ≠ "mlp" := fun h => hnreg (Or.inr h)
    refine ⟨"Unknown regressor", ?_⟩
    rw [evalML_valueErr B st (buildRegr_unknown h1 h2)]
  · intro hreg d2 cr2 m2
    have hmod :
        ({ c with
           depth := d2,
           criterion := cr2,
           min_samples_split := m2 } : Config).regressor = "mlp" := hreg
    rw [buildRegr_mlp hmod, buildRegr_mlp hreg]
  · intro hreg a2 ac2 so2 lr2
    have hmod :
        ({ c with
           alpha := a2,
           activation := ac2,
           solver := so2,
           learning_rate := lr2 } : Config).regressor = "decision_tree" := hreg
    rw [buildRegr_dt hmod, buildRegr_dt hreg]
  · intro hreg hnf hint hne
    rw [evalML_cv_assert B st (buildRegr_mlp hreg) hnf hint hne]

theorem valueerror_iff_unknown_family_witness :
    ValueErrSemantics zeroBackend stEmpty cfgMlpBadDepth :=
  valueerror_iff_unknown_family zeroBackend stEmpty cfgMlpBadDepth

end NGML
